import Mathlib

/-!
# blazehttp: calibration, replay and aggregation engine

A shallow embedding of `cmd/blazehttp/main.go`.

* Go strings are lists of characters (`Str`).
* Everything outside the file (the request/response codec, the dialer, the
  HTTP client of the calibrator, the directory walk) is an oracle that fixes
  the outcome of each external call; the functions of `main.go` are total
  functions of these oracles.
* Side effects that the properties speak about (dials, writes, reads, closes,
  probes, worker starts, prints) are recorded in an event trace.
* Go `int` counters are `Nat`: each is incremented once per merged result, so
  it is bounded by the length of the corpus slice and cannot wrap.  Status
  codes and the few differences the program computes are `Int`.
-/

namespace BlazeHTTP

/-- Go `string`, as the list of its characters. -/
abbrev Str := List Char

/-! ## `strings.HasSuffix` -/

/-- Go `strings.HasSuffix(s, suffix)`:
`len(s) >= len(suffix) && s[len(s)-len(suffix):] == suffix`. -/
def hasSuffix (s suffix : Str) : Bool :=
  decide (suffix.length ≤ s.length) && (s.drop (s.length - suffix.length) == suffix)

/-! ## The fragment of Go `regexp` used by `connect` -/

/-- Regular expressions, restricted to the operators that occur in the pattern
of `connect`.  Capturing parentheses only group and are not represented. -/
inductive Re where
  /-- a literal character -/
  | chr (c : Char)
  /-- a character class -/
  | cls (p : Char → Bool)
  /-- concatenation -/
  | seq (a b : Re)
  /-- alternation `a|b` -/
  | alt (a b : Re)
  /-- repetition `x*` of a one-character class `x` -/
  | starCls (p : Char → Bool)
  /-- the anchor `$` without the `m` flag: end of text -/
  | eot

/-- All remainders left after `x*` consumed a run of leading characters of the
class `p`. -/
def starRun (p : Char → Bool) : Str → List Str
  | [] => [[]]
  | c :: s => (c :: s) :: (if p c then starRun p s else [])

/-- All remainders left after the expression matched a prefix of the input
(every way of matching, the engine's preference order plays no role for a
yes/no answer). -/
def Re.run : Re → Str → List Str
  | .chr _, [] => []
  | .chr c, d :: s => if d = c then [s] else []
  | .cls _, [] => []
  | .cls p, d :: s => if p d then [s] else []
  | .seq a b, s => (a.run s).flatMap b.run
  | .alt a b, s => a.run s ++ b.run s
  | .starCls p, s => starRun p s
  | .eot, s => if s.isEmpty then [s] else []

/-- Go `regexp.MatchString(pattern, s)`: the pattern is not anchored at the
start, so a match may begin at any offset of `s`. -/
def matchString (re : Re) (s : Str) : Bool :=
  s.tails.any (fun t => !(re.run t).isEmpty)

/-- The class `.`: any character but a newline. -/
def isAnyButNewline (c : Char) : Bool := !(c == '\n')

/-- The class `[0-9]`. -/
def isDigit09 (c : Char) : Bool := decide ('0'.toNat ≤ c.toNat) && decide (c.toNat ≤ '9'.toNat)

/-- The pattern of `connect`, line 56: `.*(]:)|(:)[0-9]+$`.  Alternation binds
loosest, so it reads `(.*(]:)) | ((:)[0-9]+$)`; `[0-9]+` is `[0-9][0-9]*`. -/
def portPattern : Re :=
  .alt
    (.seq (.starCls isAnyButNewline) (.seq (.chr ']') (.chr ':')))
    (.seq (.chr ':') (.seq (.cls isDigit09) (.seq (.starCls isDigit09) .eot)))

/-! ## `connect` -/

/-- A connection returned by `connect`: the address dialed, the number of the
attempt that succeeded (0-based) and the three deadlines, in milliseconds from
the moment they are set. -/
structure Conn where
  addr : Str
  attempt : Nat
  deadline : Int
  readDeadline : Int
  writeDeadline : Int
deriving DecidableEq, Repr

/-- Lines 56 to 62 of `connect`: the address that is dialed. -/
def dialAddr (addr : Str) (isHttps : Bool) : Str :=
  if !(matchString portPattern addr) then
    if isHttps then addr ++ ":443".toList else addr ++ ":80".toList
  else addr

/-- Lines 63 to 77 of `connect`, from the label `retry` on.  `dial i` tells
whether the dial made after `i` failed ones succeeds.  Returns the number of
the successful attempt (or `none` for the `return nil`) and the number of
dials made. -/
def connectRetry (dial : Nat → Bool) (retryCnt : Nat) : Option Nat × Nat :=
  if dial retryCnt then
    (some retryCnt, 1)
  else
    if retryCnt + 1 < 4 then
      let r := connectRetry dial (retryCnt + 1)
      (r.1, r.2 + 1)
    else
      (none, 1)
termination_by 4 - retryCnt

/-- Result of `connect`: the connection (`none` is Go `nil`) and the addresses
dialed, in order. -/
structure ConnectResult where
  conn : Option Conn
  dials : List Str
deriving DecidableEq, Repr

/-- Go `connect(addr, isHttps, timeout)`. -/
def connect (dial : Nat → Bool) (addr : Str) (isHttps : Bool) (timeout : Int) : ConnectResult :=
  let addr := dialAddr addr isHttps
  let r := connectRetry dial 0
  match r.1 with
  | none => { conn := none, dials := List.replicate r.2 addr }
  | some k =>
    { conn := some { addr := addr, attempt := k, deadline := timeout * 2,
                     readDeadline := timeout * 2, writeDeadline := timeout }
      dials := List.replicate r.2 addr }

/-! ## Events and configuration -/

/-- Observable effects of a run. -/
inductive Event where
  /-- one `tls.Dial` / `net.Dial` to the address -/
  | dial (addr : Str)
  /-- `req.WriteTo(*conn)` of the request built from file `f`, with its Host
  header and whether `Connection: close` was set -/
  | write (f : Str) (host : Str) (connClose : Bool)
  /-- `rsp.ReadConn(*conn)` -/
  | read
  /-- `(*conn).Close()` -/
  | close
  /-- `client.Do(req)` of the calibrator: URL, Host override, TLS transport -/
  | probe (url : Str) (host : Str) (tls : Bool)
  /-- `go func()` of worker `i` -/
  | spawn (i : Nat)
  /-- a call `work(addr, isHttps, blockStatusCode, f)` -/
  | work (f : Str) (blockStatusCode : Int)
  /-- `mutex.Lock()` returned -/
  | lock
  /-- `mutex.Unlock()` -/
  | unlock
  /-- a line written to standard output -/
  | print (s : Str)
deriving DecidableEq, Repr

/-- The package-level variables set by `init` from the command line. -/
structure Config where
  target : Str
  glob : Str
  timeout : Int
  mHost : Str
  thread : Int
  requestPerSession : Bool

/-! ## `getNomalStatusCode` -/

/-- Go `strings.HasPrefix(s, prefix)`. -/
def hasPrefix (s pre : Str) : Bool :=
  decide (pre.length ≤ s.length) && (s.take pre.length == pre)

/-- Outcome of the external calls of one `getNomalStatusCode`: the error of
`http.NewRequest`, and the status code or error of `client.Do`. -/
structure ProbeOracle where
  newRequest : Option Str
  doRequest : Except Str Int

/-- Go `getNomalStatusCode(url, mHost)`: status code, error, events. -/
def getNomalStatusCode (o : ProbeOracle) (url mHost : Str) : Int × Option Str × List Event :=
  let isHttps := hasPrefix url "https".toList
  match o.newRequest with
  | some err => (0, some ("创建请求失败: ".toList ++ err), [])
  | none =>
    match o.doRequest with
    | .error err =>
      (0, some err, [.probe url mHost isHttps, .print ("HTTP 请求发生错误: ".toList ++ err)])
    | .ok statusCode => (statusCode, none, [.probe url mHost isHttps])

/-! ## `getAllFiles` -/

/-- One call of the `filepath.Walk` callback: the path visited, whether it is
a directory, and the error the walk hands to the callback. -/
structure WalkEntry where
  filePath : Str
  isDir : Bool
  err : Option Str

/-- The walk of `getAllFiles`: the callback returns the error it is handed,
which ends the walk, and collects the path of every entry that is not a
directory. -/
def walkFiles : List WalkEntry → List Str → Except Str (List Str)
  | [], files => .ok files
  | e :: rest, files =>
    match e.err with
    | some err => .error err
    | none => if !e.isDir then walkFiles rest (files ++ [e.filePath]) else walkFiles rest files

/-- Go `getAllFiles(path)`, the walk of `path` given as the sequence of
callback calls. -/
def getAllFiles (entries : List WalkEntry) : Except Str (List Str) :=
  walkFiles entries []

/-! ## `work` -/

/-- Outcome of the external calls of one `work`: the error of `req.ReadFile`,
the dial outcomes, the result of `req.WriteTo`, the error of `rsp.ReadConn`,
`rsp.GetStatusCode()` and `time.Since(start).Nanoseconds()`. -/
structure ReplayOracle where
  readFile : Option Str
  dial : Nat → Bool
  nWrite : Int
  writeTo : Option Str
  readConn : Option Str
  statusCode : Int
  elapsed : Int

/-- The four values returned by `work`. -/
structure WorkResult where
  isWhite : Bool
  isPass : Bool
  time : Int
  err : Option Str
deriving DecidableEq, Repr

/-- Go `work(addr, isHttps, blockStatusCode, f)`: the returned tuple and the
events of the call. -/
def work (cfg : Config) (o : ReplayOracle) (addr : Str) (isHttps : Bool)
    (blockStatusCode : Int) (f : Str) : WorkResult × List Event :=
  match o.readFile with
  | some err =>
    (⟨false, false, 0, some ("read request file: ".toList ++ f ++ " error: ".toList ++ err)⟩, [])
  | none =>
    let host := if cfg.mHost ≠ [] then cfg.mHost else addr
    let c := connect o.dial addr isHttps cfg.timeout
    let tr := c.dials.map Event.dial
    match c.conn with
    | none => (⟨false, false, 0, some ("connect to ".toList ++ addr ++ " failed".toList)⟩, tr)
    | some _ =>
      let tr := tr ++ [.write f host cfg.requestPerSession]
      match o.writeTo with
      | some err =>
        (⟨false, false, 0,
          some ("send request poc: ".toList ++ f ++ " length: ".toList ++ (toString o.nWrite).toList
                ++ " error: ".toList ++ err)⟩, tr)
      | none =>
        let tr := tr ++ [.read]
        match o.readConn with
        | some err =>
          (⟨false, false, 0,
            some ("read poc file: ".toList ++ f ++ " response, error: ".toList ++ err)⟩, tr)
        | none =>
          let tr := tr ++ [.close]
          let isWhite := if hasSuffix f "white".toList then true else false
          let code := o.statusCode
          let isPass := if code = blockStatusCode then false else true
          (⟨isWhite, isPass, o.elapsed, none⟩, tr)

/-! ## The aggregator -/

/-- The state shared by the workers: the mutex, the progress bar count, the
latency samples, the success counter and the confusion matrix. -/
structure Shared where
  locked : Bool
  bar : Nat
  elap : List Int
  success : Nat
  TP : Nat
  TN : Nat
  FP : Nat
  FN : Nat
deriving DecidableEq, Repr

/-- The state at line 248: nothing merged, mutex free. -/
def Shared.init : Shared :=
  { locked := false, bar := 0, elap := [], success := 0, TP := 0, TN := 0, FP := 0, FN := 0 }

/-- Lines 259 to 280: the body of the worker loop once `mutex.Lock()` has
returned, for the result `r` of `work`. -/
def merge (s : Shared) (r : WorkResult) : Shared × List Event :=
  let s := { s with locked := true }
  let s := { s with bar := s.bar + 1 }
  match r.err with
  | some err => (s, [.lock, .print err])
  | none =>
    let s := { s with elap := s.elap ++ [r.time] }
    let s := { s with success := s.success + 1 }
    let s :=
      if r.isWhite then
        if r.isPass then { s with TN := s.TN + 1 } else { s with FP := s.FP + 1 }
      else
        if r.isPass then { s with FN := s.FN + 1 } else { s with TP := s.TP + 1 }
    ({ s with locked := false }, [.lock, .unlock])

/-- How the worker pool ended: every job merged and all workers returned, or
workers blocked for ever in `mutex.Lock()`. -/
inductive PoolEnd where
  | joined
  | blocked
deriving DecidableEq, Repr

/-- Lines 257 to 281 for the whole pool, with the jobs listed in the order in
which their workers reach `mutex.Lock()`.  The critical sections are atomic,
so between two of them the mutex is held only when an earlier section ended
without `mutex.Unlock()`; then nobody is left to release it and the worker
never returns from `mutex.Lock()`, as do the other workers after the `work`
of their next job (`workers` jobs at most are started in all). -/
def runJobs (cfg : Config) (replay : Str → ReplayOracle) (addr : Str) (isHttps : Bool)
    (blockStatusCode : Int) (workers : Nat) : List Str → Shared → List Event →
    PoolEnd × Shared × List Event
  | [], s, tr => (.joined, s, tr)
  | f :: fs, s, tr =>
    if s.locked then
      let started := (f :: fs).take workers
      let evs := started.flatMap fun g =>
        Event.work g blockStatusCode :: (work cfg (replay g) addr isHttps blockStatusCode g).2
      (.blocked, s, tr ++ evs)
    else
      let w := work cfg (replay f) addr isHttps blockStatusCode f
      let m := merge s w.1
      runJobs cfg replay addr isHttps blockStatusCode workers fs m.1
        (tr ++ Event.work f blockStatusCode :: w.2 ++ m.2)

/-! ## `main` -/

/-- The world of one run: the configuration, the address and scheme that
`url.Parse` extracts from the target (lines 197 to 206), the walk of the
corpus directory, the outcome of the two calibration requests, the outcome of
the replay of each file, and the order in which the jobs reach the mutex. -/
structure Env where
  cfg : Config
  addr : Str
  isHttps : Bool
  entries : List WalkEntry
  probeNormal : ProbeOracle
  probeBlock : ProbeOracle
  replay : Str → ReplayOracle
  order : List Str → List Str

/-- How the process ends: with an exit status, or never (workers blocked in
`mutex.Lock()` while `main` waits in `wg.Wait()`). -/
inductive Exit where
  | code (n : Nat)
  | blocked
deriving DecidableEq, Repr

/-- The integers of the final report (lines 291 to 294). -/
structure Report where
  total : Int
  success : Int
  errors : Int
  TP : Int
  TN : Int
  FP : Int
  FN : Int
deriving DecidableEq, Repr

/-- What a run does: how it ends, its events, the shared state when it ends
and the report, when one is printed. -/
structure Outcome where
  exit : Exit
  trace : List Event
  shared : Shared
  report : Option Report
deriving DecidableEq, Repr

/-- The query appended to the target for the second calibration request
(line 239). -/
def blockProbeSuffix : Str :=
  ("/keys?1%20AND%201=1%20UNION%20ALL%20SELECT%201,NULL,%27<script>alert(\"XSS\")</script>%27," ++
   "table_name%20FROM%20information_schema.tables%20WHERE%202>1--/**/;" ++
   "%20EXEC%20xp_cmdshell(%27cat%20../../../etc/passwd%27)#").toList

/-- The integers printed by lines 291 to 294 for a corpus of `total` files. -/
def mkReport (total : Nat) (s : Shared) : Report :=
  { total := total, success := s.success, errors := (total : Int) - (s.success : Int),
    TP := s.TP, TN := s.TN, FP := s.FP, FN := s.FN }

/-- Lines 208 to 212: the run that finds no corpus file. -/
def noFile : Outcome :=
  { exit := .code 0, trace := [.print "cannot find http file".toList],
    shared := Shared.init, report := none }

/-- Lines 248 to 302: the worker pool and the report, after a calibration
that left the events `tr`. -/
def runPool (env : Env) (fileList : List Str) (blockStatusCode : Int) (tr : List Event) :
    Outcome :=
  let concurrency := env.cfg.thread
  let tr := tr ++ (List.range concurrency.toNat).map Event.spawn
  let jobs := if concurrency ≤ 0 then [] else env.order fileList
  let r := runJobs env.cfg env.replay env.addr env.isHttps blockStatusCode concurrency.toNat
    jobs Shared.init tr
  match r.1 with
  | .blocked => { exit := .blocked, trace := r.2.2, shared := r.2.1, report := none }
  | .joined =>
    { exit := .code 0, trace := r.2.2, shared := r.2.1,
      report := some (mkReport fileList.length r.2.1) }

/-- Lines 233 to 302: calibration, then the pool. -/
def calibrateAndRun (env : Env) (fileList : List Str) : Outcome :=
  let cfg := env.cfg
  let p1 := getNomalStatusCode env.probeNormal cfg.target cfg.mHost
  let p2 := getNomalStatusCode env.probeBlock (cfg.target ++ blockProbeSuffix) cfg.mHost
  let tr := p1.2.2 ++ p2.2.2
  let nomalStatusCode := p1.1
  let blockStatusCode := p2.1
  if p1.2.1.isSome || p2.2.1.isSome then
    { exit := .code 1, trace := tr, shared := Shared.init, report := none }
  else if nomalStatusCode = blockStatusCode then
    { exit := .code 1, trace := tr ++ [.print "目标网站未开启waf".toList],
      shared := Shared.init, report := none }
  else
    runPool env fileList blockStatusCode tr

/-- Go `main`. -/
def main (env : Env) : Outcome :=
  match getAllFiles env.entries with
  | .error _ => noFile
  | .ok fileList =>
    if fileList.length = 0 then noFile
    else calibrateAndRun env fileList

/-- The error test of line 240. -/
def probeFailed (env : Env) : Bool :=
  (getNomalStatusCode env.probeNormal env.cfg.target env.cfg.mHost).2.1.isSome ||
  (getNomalStatusCode env.probeBlock (env.cfg.target ++ blockProbeSuffix) env.cfg.mHost).2.1.isSome

/-- The events of the two calibration requests. -/
def probeTrace (env : Env) : List Event :=
  (getNomalStatusCode env.probeNormal env.cfg.target env.cfg.mHost).2.2 ++
  (getNomalStatusCode env.probeBlock (env.cfg.target ++ blockProbeSuffix) env.cfg.mHost).2.2

/-! ## Concrete runs -/

/-- A configuration with one worker and the default timeout. -/
def demoCfg : Config :=
  { target := "http://waf.test".toList, glob := "./testcases/".toList, timeout := 1000,
    mHost := [], thread := 1, requestPerSession := true }

/-- A calibration request answered with status `n`. -/
def okProbe (n : Int) : ProbeOracle := { newRequest := none, doRequest := .ok n }

/-- A replay on which every external call succeeds and the target answers
with `status`. -/
def okReplay (status : Int) : ReplayOracle :=
  { readFile := none, dial := fun _ => true, nWrite := 120, writeTo := none, readConn := none,
    statusCode := status, elapsed := 5000000 }

/-- A corpus directory entry. -/
def dirEntry (path : String) : WalkEntry := { filePath := path.toList, isDir := true, err := none }

/-- A corpus file entry. -/
def fileEntry (path : String) : WalkEntry :=
  { filePath := path.toList, isDir := false, err := none }

/-- The example of the spec: two black cases answered 403, one white case
answered 200, block status 403. -/
def exampleEnv : Env :=
  { cfg := demoCfg, addr := "waf.test".toList, isHttps := false
    entries := [dirEntry "testcases", fileEntry "testcases/sqli1_black",
                fileEntry "testcases/xss1_black", fileEntry "testcases/login_white"]
    probeNormal := okProbe 200, probeBlock := okProbe 403
    replay := fun f => if hasSuffix f "white".toList then okReplay 200 else okReplay 403
    order := id }

/-- A run whose first file cannot be read, followed by a good one. -/
def unreadableFirstEnv : Env :=
  { exampleEnv with
    entries := [dirEntry "testcases", fileEntry "testcases/a_black",
                fileEntry "testcases/b_white"]
    replay := fun f =>
      if f = "testcases/a_black".toList then
        { okReplay 403 with readFile := some "permission denied".toList }
      else okReplay 200 }

/-- A run over an empty corpus directory. -/
def emptyDirEnv : Env := { exampleEnv with entries := [dirEntry "testcases"] }

/-- A run over a corpus directory that cannot be opened. -/
def unreadableDirEnv : Env :=
  { exampleEnv with
    entries := [{ filePath := "testcases".toList, isDir := false,
                  err := some "permission denied".toList }] }

/-- A run against a target that answers both calibration requests with 200. -/
def sameStatusEnv : Env := { exampleEnv with probeBlock := okProbe 200 }

/-- A replay whose connection is established and whose send fails. -/
def sendFailure : ReplayOracle := { okReplay 403 with writeTo := some "broken pipe".toList }

/-- A replay whose connection is established and whose receive fails. -/
def recvFailure : ReplayOracle := { okReplay 403 with readConn := some "i/o timeout".toList }

/-! ## Specification-side notions -/

/-- The address ends with `:` followed by one or more decimal digits. -/
def EndsWithPort (addr : Str) : Prop :=
  ∃ pre ds, addr = pre ++ ':' :: ds ∧ ds ≠ [] ∧ ∀ d ∈ ds, isDigit09 d = true

/-- The address contains the two characters `]:` somewhere. -/
def ContainsBracketColon (addr : Str) : Prop :=
  [']', ':'] <:+: addr

/-- The file name of a path, in the spec's sense: what follows the last
separator `sep` (the whole path when it has none). -/
def fileName (sep : Char) (f : Str) : Str :=
  (f.reverse.takeWhile (fun c => !(c == sep))).reverse

/-- The success counter equals the sum of the four buckets. -/
def Shared.Balanced (s : Shared) : Prop :=
  s.success = s.TP + s.TN + s.FP + s.FN

/-! ## The regular expression matcher -/

theorem mem_starRun (p : Char → Bool) (t r : Str) :
    r ∈ starRun p t ↔ ∃ m, t = m ++ r ∧ ∀ c ∈ m, p c = true := by
  induction t with
  | nil =>
    simp only [starRun, List.mem_singleton]
    constructor
    · rintro rfl
      exact ⟨[], rfl, by simp⟩
    · rintro ⟨m, hm, -⟩
      have := List.append_eq_nil.mp hm.symm
      exact this.2
  | cons c s ih =>
    simp only [starRun, List.mem_cons]
    constructor
    · rintro (rfl | h)
      · exact ⟨[], rfl, by simp⟩
      · by_cases hp : p c = true
        · rw [if_pos hp] at h
          obtain ⟨m, hm, hall⟩ := ih.mp h
          refine ⟨c :: m, by simp [hm], ?_⟩
          intro d hd
          rcases List.mem_cons.mp hd with rfl | hd
          · exact hp
          · exact hall d hd
        · rw [if_neg hp] at h
          cases h
    · rintro ⟨m, hm, hall⟩
      cases m with
      | nil => left; simpa using hm.symm
      | cons d m =>
        right
        simp only [List.cons_append, List.cons.injEq] at hm
        obtain ⟨rfl, rfl⟩ := hm
        have hp : p c = true := hall c (List.mem_cons_self _ _)
        rw [if_pos hp]
        exact ih.mpr ⟨m, rfl, fun d hd => hall d (List.mem_cons_of_mem _ hd)⟩

theorem mem_run_chr (c : Char) (u r : Str) : r ∈ (Re.chr c).run u ↔ u = c :: r := by
  cases u with
  | nil => simp [Re.run]
  | cons d s =>
    by_cases h : d = c
    · simp [Re.run, h, eq_comm]
    · simp [Re.run, h]

theorem mem_run_cls (p : Char → Bool) (u r : Str) :
    r ∈ (Re.cls p).run u ↔ ∃ d, u = d :: r ∧ p d = true := by
  cases u with
  | nil => simp [Re.run]
  | cons d s =>
    by_cases h : p d = true
    · simp only [Re.run, h, if_true, List.mem_singleton, List.cons.injEq]
      constructor
      · rintro rfl
        exact ⟨d, ⟨rfl, rfl⟩, h⟩
      · rintro ⟨e, ⟨-, rfl⟩, -⟩
        rfl
    · simp only [Re.run, h, List.cons.injEq]
      constructor
      · intro h0
        simp at h0
      · rintro ⟨e, ⟨rfl, -⟩, he⟩
        exact absurd he h

theorem mem_run_seq (a b : Re) (u r : Str) :
    r ∈ (Re.seq a b).run u ↔ ∃ m, m ∈ a.run u ∧ r ∈ b.run m := by
  simp [Re.run, List.mem_flatMap]

theorem mem_run_alt (a b : Re) (u r : Str) :
    r ∈ (Re.alt a b).run u ↔ r ∈ a.run u ∨ r ∈ b.run u := by
  simp [Re.run]

theorem mem_run_eot (u r : Str) : r ∈ Re.eot.run u ↔ u = [] ∧ r = [] := by
  cases u with
  | nil => simp [Re.run]
  | cons d s => simp [Re.run]

theorem matchString_iff (re : Re) (s : Str) :
    matchString re s = true ↔ ∃ t r, t <:+ s ∧ r ∈ re.run t := by
  simp only [matchString, List.any_eq_true, List.mem_tails, Bool.not_eq_true,
    Bool.not_eq_eq_eq_not, Bool.not_true, List.isEmpty_eq_false]
  constructor
  · rintro ⟨t, ht, hne⟩
    obtain ⟨r, hr⟩ := List.exists_mem_of_ne_nil _ hne
    exact ⟨t, r, ht, hr⟩
  · rintro ⟨t, r, ht, hr⟩
    exact ⟨t, ht, List.ne_nil_of_mem hr⟩

/-- What the pattern of `connect` accepts. -/
theorem matchString_portPattern (addr : Str) :
    matchString portPattern addr = true ↔ ContainsBracketColon addr ∨ EndsWithPort addr := by
  rw [matchString_iff]
  constructor
  · rintro ⟨t, r, ⟨x, rfl⟩, hr⟩
    rw [portPattern, mem_run_alt] at hr
    rcases hr with hr | hr
    · left
      rw [mem_run_seq] at hr
      obtain ⟨m, hm, hr⟩ := hr
      rw [mem_run_seq] at hr
      obtain ⟨m2, hm2, hr⟩ := hr
      rw [mem_run_chr] at hm2 hr
      have hm3 : m ∈ starRun isAnyButNewline t := hm
      obtain ⟨k, hk, -⟩ := (mem_starRun _ _ _).mp hm3
      subst hk hm2 hr
      exact ⟨x ++ k, r, by simp⟩
    · right
      rw [mem_run_seq] at hr
      obtain ⟨m, hm, hr⟩ := hr
      rw [mem_run_seq] at hr
      obtain ⟨m2, hm2, hr⟩ := hr
      rw [mem_run_seq] at hr
      obtain ⟨m3, hm3, hr⟩ := hr
      rw [mem_run_chr] at hm
      rw [mem_run_cls] at hm2
      rw [mem_run_eot] at hr
      obtain ⟨d, hd, hpd⟩ := hm2
      have hm4 : m3 ∈ starRun isDigit09 m2 := hm3
      obtain ⟨k, hk, hall⟩ := (mem_starRun _ _ _).mp hm4
      obtain ⟨rfl, rfl⟩ := hr
      subst hk hd hm
      refine ⟨x, d :: k, by simp, by simp, ?_⟩
      intro e he
      rcases List.mem_cons.mp he with rfl | he
      · exact hpd
      · exact hall e he
  · rintro (⟨x, y, h⟩ | ⟨pre, ds, rfl, hne, hall⟩)
    · refine ⟨']' :: ':' :: y, y, ⟨x, by simpa using h⟩, ?_⟩
      rw [portPattern, mem_run_alt]
      left
      rw [mem_run_seq]
      refine ⟨']' :: ':' :: y, ?_, ?_⟩
      · exact (mem_starRun _ _ _).mpr ⟨[], rfl, by simp⟩
      · rw [mem_run_seq]
        exact ⟨':' :: y, (mem_run_chr _ _ _).mpr rfl, (mem_run_chr _ _ _).mpr rfl⟩
    · cases ds with
      | nil => exact absurd rfl hne
      | cons d k =>
        refine ⟨':' :: d :: k, [], ⟨pre, rfl⟩, ?_⟩
        rw [portPattern, mem_run_alt]
        right
        rw [mem_run_seq]
        refine ⟨d :: k, (mem_run_chr _ _ _).mpr rfl, ?_⟩
        rw [mem_run_seq]
        refine ⟨k, (mem_run_cls _ _ _).mpr ⟨d, rfl, hall d (List.mem_cons_self _ _)⟩, ?_⟩
        rw [mem_run_seq]
        refine ⟨[], ?_, (mem_run_eot _ _).mpr ⟨rfl, rfl⟩⟩
        exact (mem_starRun _ _ _).mpr
          ⟨k, by simp, fun e he => hall e (List.mem_cons_of_mem _ he)⟩

/-! ## `connect` -/

/-- The retry loop, unrolled: the ceiling of four dials makes it finite. -/
theorem connectRetry_zero (dial : Nat → Bool) :
    connectRetry dial 0 =
      if dial 0 then (some 0, 1)
      else if dial 1 then (some 1, 2)
      else if dial 2 then (some 2, 3)
      else if dial 3 then (some 3, 4)
      else (none, 4) := by
  rw [connectRetry]
  by_cases h0 : dial 0 = true
  · simp [h0]
  · rw [connectRetry]
    by_cases h1 : dial 1 = true
    · simp [h0, h1]
    · rw [connectRetry]
      by_cases h2 : dial 2 = true
      · simp [h0, h1, h2]
      · rw [connectRetry]
        by_cases h3 : dial 3 = true
        · simp [h0, h1, h2, h3]
        · simp [h0, h1, h2, h3]

theorem connect_dials (dial : Nat → Bool) (addr : Str) (isHttps : Bool) (timeout : Int) :
    (connect dial addr isHttps timeout).dials =
      List.replicate (connectRetry dial 0).2 (dialAddr addr isHttps) := by
  unfold connect
  cases h : (connectRetry dial 0).1 <;> simp [h]

theorem connect_conn (dial : Nat → Bool) (addr : Str) (isHttps : Bool) (timeout : Int) :
    (connect dial addr isHttps timeout).conn =
      (connectRetry dial 0).1.map fun k =>
        { addr := dialAddr addr isHttps, attempt := k, deadline := timeout * 2,
          readDeadline := timeout * 2, writeDeadline := timeout } := by
  unfold connect
  cases h : (connectRetry dial 0).1 <;> simp [h]

theorem connectRetry_pos (dial : Nat → Bool) : 0 < (connectRetry dial 0).2 := by
  rw [connectRetry_zero]
  split_ifs <;> simp

theorem endsWithPort_last (s : Str) (h : EndsWithPort s) :
    ∃ d, s.reverse.head? = some d ∧ isDigit09 d = true := by
  obtain ⟨pre, ds, rfl, hne, hall⟩ := h
  have hr : ds.reverse ≠ [] := by simpa using hne
  obtain ⟨d, k, hk⟩ := List.exists_cons_of_ne_nil hr
  refine ⟨d, ?_, ?_⟩
  · simp [hk]
  · apply hall
    have : d ∈ ds.reverse := by rw [hk]; exact List.mem_cons_self _ _
    simpa using this

/-! ## Suffixes and file names -/

theorem hasSuffix_iff (s suffix : Str) : hasSuffix s suffix = true ↔ suffix <:+ s := by
  unfold hasSuffix
  simp only [Bool.and_eq_true, decide_eq_true_eq, beq_iff_eq]
  constructor
  · rintro ⟨-, h⟩
    rw [← h]
    exact List.drop_suffix _ _
  · rintro ⟨x, rfl⟩
    refine ⟨by simp, ?_⟩
    have : (x ++ suffix).length - suffix.length = x.length := by simp
    rw [this, List.drop_left]

theorem fileName_suffix (sep : Char) (f : Str) : fileName sep f <:+ f := by
  unfold fileName
  have h := List.takeWhile_prefix (l := f.reverse) (fun c => !(c == sep))
  have h2 := List.reverse_suffix.mpr h
  simpa using h2

theorem suffix_fileName_iff (sep : Char) (w f : Str) (hsep : sep ∉ w) :
    w <:+ fileName sep f ↔ w <:+ f := by
  constructor
  · intro h
    exact h.trans (fileName_suffix sep f)
  · rintro ⟨a, rfl⟩
    unfold fileName
    have hall : ∀ c ∈ w.reverse, (fun c => !(c == sep)) c = true := by
      intro c hc
      have hc2 : c ∈ w := by simpa using hc
      have : c ≠ sep := fun e => hsep (e ▸ hc2)
      simpa using this
    rw [List.reverse_append, List.takeWhile_append_of_pos hall, List.reverse_append,
      List.reverse_reverse]
    exact List.suffix_append _ _

/-! ## `work` -/

/-- The path of `work` on which nothing fails. -/
theorem work_ok (cfg : Config) (o : ReplayOracle) (addr : Str) (isHttps : Bool)
    (blockStatusCode : Int) (f : Str)
    (hload : o.readFile = none)
    (hconn : (connect o.dial addr isHttps cfg.timeout).conn ≠ none)
    (hsend : o.writeTo = none) (hrecv : o.readConn = none) :
    work cfg o addr isHttps blockStatusCode f =
      (⟨hasSuffix f "white".toList, !(decide (o.statusCode = blockStatusCode)), o.elapsed, none⟩,
        (connect o.dial addr isHttps cfg.timeout).dials.map Event.dial ++
          [.write f (if cfg.mHost ≠ [] then cfg.mHost else addr) cfg.requestPerSession,
           .read, .close]) := by
  obtain ⟨c, hc⟩ := Option.ne_none_iff_exists.mp hconn
  unfold work
  simp only [hload, ← hc, hsend, hrecv]
  by_cases hw : hasSuffix f "white".toList = true <;>
    by_cases hs : o.statusCode = blockStatusCode <;> simp [hw, hs]

/-! ## The aggregator -/

theorem merge_balanced (s : Shared) (r : WorkResult) (h : s.Balanced) :
    (merge s r).1.Balanced := by
  unfold Shared.Balanced at *
  unfold merge
  cases r.err with
  | some e => simpa using h
  | none =>
    cases r.isWhite <;> cases r.isPass <;> simp [h] <;> omega

theorem runJobs_balanced (cfg : Config) (replay : Str → ReplayOracle) (addr : Str)
    (isHttps : Bool) (b : Int) (n : Nat) (jobs : List Str) :
    ∀ (s : Shared) (tr : List Event), s.Balanced →
      (runJobs cfg replay addr isHttps b n jobs s tr).2.1.Balanced := by
  induction jobs with
  | nil => intro s tr h; simpa [runJobs] using h
  | cons f fs ih =>
    intro s tr h
    unfold runJobs
    by_cases hl : s.locked = true
    · simpa [hl] using h
    · simp only [hl]
      exact ih _ _ (merge_balanced _ _ h)

theorem init_balanced : Shared.init.Balanced := by
  simp [Shared.Balanced, Shared.init]

theorem runPool_balanced (env : Env) (fileList : List Str) (b : Int) (tr : List Event) :
    (runPool env fileList b tr).shared.Balanced := by
  unfold runPool
  have hb := runJobs_balanced env.cfg env.replay env.addr env.isHttps b env.cfg.thread.toNat
    (if env.cfg.thread ≤ 0 then [] else env.order fileList) Shared.init
    (tr ++ (List.range env.cfg.thread.toNat).map Event.spawn) init_balanced
  simp only
  split <;> exact hb

theorem calibrateAndRun_balanced (env : Env) (fileList : List Str) :
    (calibrateAndRun env fileList).shared.Balanced := by
  unfold calibrateAndRun
  simp only
  split_ifs
  · exact init_balanced
  · exact init_balanced
  · exact runPool_balanced _ _ _ _

theorem main_balanced (env : Env) : (main env).shared.Balanced := by
  unfold main
  split
  · exact init_balanced
  · split_ifs
    · exact init_balanced
    · exact calibrateAndRun_balanced _ _

theorem runPool_report (env : Env) (fileList : List Str) (b : Int) (tr : List Event)
    (rep : Report) (h : (runPool env fileList b tr).report = some rep) :
    rep = mkReport fileList.length (runPool env fileList b tr).shared := by
  unfold runPool at h ⊢
  simp only at h ⊢
  split at h
  · cases h
  · simp only [Option.some.injEq] at h
    exact h.symm

theorem calibrateAndRun_failed (env : Env) (fileList : List Str) (h : probeFailed env = true) :
    calibrateAndRun env fileList =
      { exit := .code 1, trace := probeTrace env, shared := Shared.init, report := none } := by
  unfold probeFailed at h
  unfold calibrateAndRun probeTrace
  simp only [h, if_true]

theorem calibrateAndRun_same (env : Env) (fileList : List Str) (h : probeFailed env = false)
    (hs : (getNomalStatusCode env.probeNormal env.cfg.target env.cfg.mHost).1 =
      (getNomalStatusCode env.probeBlock (env.cfg.target ++ blockProbeSuffix) env.cfg.mHost).1) :
    calibrateAndRun env fileList =
      { exit := .code 1, trace := probeTrace env ++ [.print "目标网站未开启waf".toList],
        shared := Shared.init, report := none } := by
  unfold probeFailed at h
  unfold calibrateAndRun probeTrace
  simp only [h, hs, if_true, Bool.false_eq_true, if_false]

theorem calibrateAndRun_differ (env : Env) (fileList : List Str) (h : probeFailed env = false)
    (hs : (getNomalStatusCode env.probeNormal env.cfg.target env.cfg.mHost).1 ≠
      (getNomalStatusCode env.probeBlock (env.cfg.target ++ blockProbeSuffix) env.cfg.mHost).1) :
    calibrateAndRun env fileList =
      runPool env fileList
        (getNomalStatusCode env.probeBlock (env.cfg.target ++ blockProbeSuffix) env.cfg.mHost).1
        (probeTrace env) := by
  unfold probeFailed at h
  unfold calibrateAndRun probeTrace
  simp only [h, hs, Bool.false_eq_true, if_false]

theorem calibrateAndRun_report (env : Env) (fileList : List Str) (rep : Report)
    (h : (calibrateAndRun env fileList).report = some rep) :
    rep = mkReport fileList.length (calibrateAndRun env fileList).shared := by
  by_cases hf : probeFailed env = true
  · rw [calibrateAndRun_failed env fileList hf] at h
    cases h
  · have hf2 : probeFailed env = false := by simpa using hf
    by_cases hs : (getNomalStatusCode env.probeNormal env.cfg.target env.cfg.mHost).1 =
      (getNomalStatusCode env.probeBlock (env.cfg.target ++ blockProbeSuffix) env.cfg.mHost).1
    · rw [calibrateAndRun_same env fileList hf2 hs] at h
      cases h
    · rw [calibrateAndRun_differ env fileList hf2 hs] at h ⊢
      exact runPool_report _ _ _ _ _ h

theorem main_of_error (env : Env) (e : Str) (h : getAllFiles env.entries = .error e) :
    main env = noFile := by
  unfold main
  rw [h]

theorem main_of_empty (env : Env) (h : getAllFiles env.entries = .ok []) :
    main env = noFile := by
  unfold main
  rw [h]
  rfl

theorem main_of_files (env : Env) (fileList : List Str)
    (h : getAllFiles env.entries = .ok fileList) (hne : fileList ≠ []) :
    main env = calibrateAndRun env fileList := by
  unfold main
  rw [h]
  have : fileList.length ≠ 0 := fun h0 => hne (List.length_eq_zero.mp h0)
  simp only [this, if_false]

theorem main_report (env : Env) (rep : Report) (h : (main env).report = some rep) :
    ∃ fileList, getAllFiles env.entries = .ok fileList ∧
      rep = mkReport fileList.length (main env).shared := by
  cases hg : getAllFiles env.entries with
  | error e =>
    rw [main_of_error env e hg] at h
    cases h
  | ok fileList =>
    by_cases hne : fileList = []
    · subst hne
      rw [main_of_empty env hg] at h
      cases h
    · rw [main_of_files env fileList hg hne] at h ⊢
      exact ⟨fileList, rfl, calibrateAndRun_report _ _ _ h⟩

/-! ## Events of a run -/

theorem work_events (cfg : Config) (o : ReplayOracle) (addr : Str) (isHttps : Bool) (b : Int)
    (f : Str) : ∀ e ∈ (work cfg o addr isHttps b f).2,
      (∃ a, e = .dial a) ∨ (∃ g h c, e = .write g h c) ∨ e = .read ∨ e = .close := by
  intro e he
  unfold work at he
  split at he
  · simp at he
  · simp only at he
    split at he
    · simp only [List.mem_map] at he
      obtain ⟨a, -, rfl⟩ := he
      exact Or.inl ⟨a, rfl⟩
    · split at he
      · simp only [List.mem_append, List.mem_map, List.mem_singleton] at he
        rcases he with ⟨a, -, rfl⟩ | rfl
        · exact Or.inl ⟨a, rfl⟩
        · exact Or.inr (Or.inl ⟨_, _, _, rfl⟩)
      · split at he
        · simp only [List.mem_append, List.mem_map, List.mem_singleton] at he
          rcases he with (⟨a, -, rfl⟩ | rfl) | rfl
          · exact Or.inl ⟨a, rfl⟩
          · exact Or.inr (Or.inl ⟨_, _, _, rfl⟩)
          · exact Or.inr (Or.inr (Or.inl rfl))
        · simp only [List.mem_append, List.mem_map, List.mem_singleton] at he
          rcases he with ((⟨a, -, rfl⟩ | rfl) | rfl) | rfl
          · exact Or.inl ⟨a, rfl⟩
          · exact Or.inr (Or.inl ⟨_, _, _, rfl⟩)
          · exact Or.inr (Or.inr (Or.inl rfl))
          · exact Or.inr (Or.inr (Or.inr rfl))

theorem merge_events (s : Shared) (r : WorkResult) :
    ∀ e ∈ (merge s r).2, e = .lock ∨ e = .unlock ∨ ∃ m, e = .print m := by
  intro e he
  unfold merge at he
  split at he
  · simp only [List.mem_cons, List.mem_singleton, List.not_mem_nil, or_false] at he
    rcases he with rfl | rfl
    · exact Or.inl rfl
    · exact Or.inr (Or.inr ⟨_, rfl⟩)
  · simp only [List.mem_cons, List.mem_singleton, List.not_mem_nil, or_false] at he
    rcases he with rfl | rfl
    · exact Or.inl rfl
    · exact Or.inr (Or.inl rfl)

/-- Every call of `work` made by the pool carries the pool's block status. -/
theorem runJobs_work_event (cfg : Config) (replay : Str → ReplayOracle) (addr : Str)
    (isHttps : Bool) (b : Int) (n : Nat) (jobs : List Str) :
    ∀ (s : Shared) (tr : List Event) (g : Str) (c : Int),
      Event.work g c ∈ (runJobs cfg replay addr isHttps b n jobs s tr).2.2 →
      Event.work g c ∈ tr ∨ c = b := by
  induction jobs with
  | nil => intro s tr g c h; left; simpa [runJobs] using h
  | cons f fs ih =>
    intro s tr g c h
    unfold runJobs at h
    by_cases hl : s.locked = true
    · simp only [hl, if_true, List.mem_append, List.mem_flatMap, List.mem_cons] at h
      rcases h with h | ⟨x, -, hx | hx⟩
      · exact Or.inl h
      · right
        injection hx with _ hc
      · rcases work_events _ _ _ _ _ _ _ hx with ⟨a, ha⟩ | ⟨_, _, _, ha⟩ | ha | ha <;> cases ha
    · simp only [hl] at h
      rcases ih _ _ _ _ h with h | h
      · simp only [Bool.false_eq_true, if_false, List.mem_append, List.mem_cons] at h
        rcases h with (h | h | h) | h
        · exact Or.inl h
        · right
          injection h with _ hc
        · rcases work_events _ _ _ _ _ _ _ h with ⟨a, ha⟩ | ⟨_, _, _, ha⟩ | ha | ha <;> cases ha
        · rcases merge_events _ _ _ h with ha | ha | ⟨_, ha⟩ <;> cases ha
      · exact Or.inr h

theorem probe_events (o : ProbeOracle) (url mHost : Str) :
    ∀ e ∈ (getNomalStatusCode o url mHost).2.2,
      (∃ u h t, e = .probe u h t) ∨ ∃ m, e = .print m := by
  intro e he
  unfold getNomalStatusCode at he
  split at he
  · simp at he
  · split at he
    · simp only [List.mem_cons, List.mem_singleton, List.not_mem_nil, or_false] at he
      rcases he with rfl | rfl
      · exact Or.inl ⟨_, _, _, rfl⟩
      · exact Or.inr ⟨_, rfl⟩
    · simp only [List.mem_singleton] at he
      subst he
      exact Or.inl ⟨_, _, _, rfl⟩

theorem probeTrace_events (env : Env) :
    ∀ e ∈ probeTrace env, (∃ u h t, e = .probe u h t) ∨ ∃ m, e = .print m := by
  intro e he
  unfold probeTrace at he
  rcases List.mem_append.mp he with h | h
  · exact probe_events _ _ _ e h
  · exact probe_events _ _ _ e h

theorem runPool_work_event (env : Env) (fileList : List Str) (b : Int) (tr : List Event)
    (g : Str) (c : Int) (h : Event.work g c ∈ (runPool env fileList b tr).trace) :
    Event.work g c ∈ tr ∨ c = b := by
  unfold runPool at h
  simp only at h
  have key : Event.work g c ∈ (runJobs env.cfg env.replay env.addr env.isHttps b
      env.cfg.thread.toNat (if env.cfg.thread ≤ 0 then [] else env.order fileList) Shared.init
      (tr ++ (List.range env.cfg.thread.toNat).map Event.spawn)).2.2 := by
    split at h <;> exact h
  rcases runJobs_work_event _ _ _ _ _ _ _ _ _ _ _ key with h1 | h1
  · rcases List.mem_append.mp h1 with h2 | h2
    · exact Or.inl h2
    · simp at h2
  · exact Or.inr h1

/-- A call of `work` happens only after a calibration that found two
different status codes, and carries the second one. -/
theorem main_work_event (env : Env) (g : Str) (c : Int)
    (h : Event.work g c ∈ (main env).trace) :
    c = (getNomalStatusCode env.probeBlock (env.cfg.target ++ blockProbeSuffix)
          env.cfg.mHost).1 ∧
    c ≠ (getNomalStatusCode env.probeNormal env.cfg.target env.cfg.mHost).1 := by
  cases hg : getAllFiles env.entries with
  | error e =>
    rw [main_of_error env e hg] at h
    simp [noFile] at h
  | ok fileList =>
    by_cases hne : fileList = []
    · subst hne
      rw [main_of_empty env hg] at h
      simp [noFile] at h
    · rw [main_of_files env fileList hg hne] at h
      by_cases hf : probeFailed env = true
      · rw [calibrateAndRun_failed env fileList hf] at h
        rcases probeTrace_events env _ h with ⟨_, _, _, he⟩ | ⟨_, he⟩ <;> cases he
      · have hf2 : probeFailed env = false := by simpa using hf
        by_cases hs : (getNomalStatusCode env.probeNormal env.cfg.target env.cfg.mHost).1 =
          (getNomalStatusCode env.probeBlock (env.cfg.target ++ blockProbeSuffix)
            env.cfg.mHost).1
        · rw [calibrateAndRun_same env fileList hf2 hs] at h
          simp only [List.mem_append, List.mem_singleton] at h
          rcases h with h | h
          · rcases probeTrace_events env _ h with ⟨_, _, _, he⟩ | ⟨_, he⟩ <;> cases he
          · cases h
        · rw [calibrateAndRun_differ env fileList hf2 hs] at h
          rcases runPool_work_event _ _ _ _ _ _ h with h1 | h1
          · rcases probeTrace_events env _ h1 with ⟨_, _, _, he⟩ | ⟨_, he⟩ <;> cases he
          · subst h1
            exact ⟨rfl, fun e => hs e.symm⟩

theorem work_err_none (cfg : Config) (o : ReplayOracle) (addr : Str) (isHttps : Bool)
    (b : Int) (f : Str) (h : (work cfg o addr isHttps b f).1.err = none) :
    o.readFile = none ∧ (connect o.dial addr isHttps cfg.timeout).conn ≠ none ∧
      o.writeTo = none ∧ o.readConn = none := by
  unfold work at h
  split at h
  · simp at h
  · rename_i hload
    simp only at h
    split at h
    · simp at h
    · rename_i c hc
      split at h
      · simp at h
      · rename_i hsend
        split at h
        · simp at h
        · rename_i hrecv
          exact ⟨hload, by rw [hc]; simp, hsend, hrecv⟩

/-! ## The properties -/

/-- C1: merging an error-free result `(isWhite, isPass)` increases exactly one
of TP, TN, FP, FN by 1 and leaves the other three unchanged; the bucket is
TN for White+passed, FP for White+blocked, FN for Black+passed and TP for
Black+blocked. -/
theorem merge_increments_one_bucket (s : Shared) (r : WorkResult) (h : r.err = none) :
    (r.isWhite = true ∧ r.isPass = true →
      (merge s r).1.TN = s.TN + 1 ∧ (merge s r).1.FP = s.FP ∧
      (merge s r).1.FN = s.FN ∧ (merge s r).1.TP = s.TP) ∧
    (r.isWhite = true ∧ r.isPass = false →
      (merge s r).1.FP = s.FP + 1 ∧ (merge s r).1.TN = s.TN ∧
      (merge s r).1.FN = s.FN ∧ (merge s r).1.TP = s.TP) ∧
    (r.isWhite = false ∧ r.isPass = true →
      (merge s r).1.FN = s.FN + 1 ∧ (merge s r).1.TN = s.TN ∧
      (merge s r).1.FP = s.FP ∧ (merge s r).1.TP = s.TP) ∧
    (r.isWhite = false ∧ r.isPass = false →
      (merge s r).1.TP = s.TP + 1 ∧ (merge s r).1.TN = s.TN ∧
      (merge s r).1.FP = s.FP ∧ (merge s r).1.FN = s.FN) := by
  unfold merge
  simp only [h]
  refine ⟨?_, ?_, ?_, ?_⟩ <;> rintro ⟨hw, hp⟩ <;> simp [hw, hp]

theorem merge_increments_one_bucket_witness :
    (merge Shared.init ⟨true, false, 7, none⟩).1.FP = Shared.init.FP + 1 ∧
    (merge Shared.init ⟨true, false, 7, none⟩).1.TN = Shared.init.TN ∧
    (merge Shared.init ⟨true, false, 7, none⟩).1.FN = Shared.init.FN ∧
    (merge Shared.init ⟨true, false, 7, none⟩).1.TP = Shared.init.TP :=
  (merge_increments_one_bucket Shared.init ⟨true, false, 7, none⟩ rfl).2.1 ⟨rfl, rfl⟩

/-- C2: when `work` loads the file, connects, sends and receives without
error, it returns no error and its `isPass` is true if and only if the
response status code differs from the block status code. -/
theorem work_isPass_iff (cfg : Config) (o : ReplayOracle) (addr : Str) (isHttps : Bool)
    (blockStatusCode : Int) (f : Str)
    (hload : o.readFile = none)
    (hconn : (connect o.dial addr isHttps cfg.timeout).conn ≠ none)
    (hsend : o.writeTo = none) (hrecv : o.readConn = none) :
    (work cfg o addr isHttps blockStatusCode f).1.err = none ∧
    ((work cfg o addr isHttps blockStatusCode f).1.isPass = true ↔
      o.statusCode ≠ blockStatusCode) := by
  rw [work_ok cfg o addr isHttps blockStatusCode f hload hconn hsend hrecv]
  simp

theorem work_isPass_iff_witness :
    (work demoCfg (okReplay 200) "waf.test".toList false 403 "t/login_white".toList).1.err = none ∧
    ((work demoCfg (okReplay 200) "waf.test".toList false 403 "t/login_white".toList).1.isPass
        = true ↔ (okReplay 200).statusCode ≠ 403) :=
  work_isPass_iff demoCfg (okReplay 200) "waf.test".toList false 403 "t/login_white".toList
    rfl (by decide!) rfl rfl

/-- C3: for every path `f` that `work` replays without error, the label is
White (`isWhite = true`) if and only if the file name of `f` (what follows
its last separator) ends with `white`, equivalently if and only if `f` itself
does; it is Black otherwise. -/
theorem work_isWhite_iff (cfg : Config) (o : ReplayOracle) (addr : Str) (isHttps : Bool)
    (blockStatusCode : Int) (f : Str) (sep : Char) (hsep : sep ∉ "white".toList)
    (h : (work cfg o addr isHttps blockStatusCode f).1.err = none) :
    ((work cfg o addr isHttps blockStatusCode f).1.isWhite = true ↔
      "white".toList <:+ fileName sep f) ∧
    ((work cfg o addr isHttps blockStatusCode f).1.isWhite = true ↔ "white".toList <:+ f) ∧
    ((work cfg o addr isHttps blockStatusCode f).1.isWhite = false ↔
      ¬ "white".toList <:+ fileName sep f) := by
  obtain ⟨hload, hconn, hsend, hrecv⟩ := work_err_none cfg o addr isHttps blockStatusCode f h
  rw [work_ok cfg o addr isHttps blockStatusCode f hload hconn hsend hrecv]
  simp only [suffix_fileName_iff sep _ f hsep, hasSuffix_iff, Bool.eq_false_iff, ne_eq,
    and_self]

theorem work_isWhite_iff_witness :
    ((work demoCfg (okReplay 200) "waf.test".toList false 403 "t/login_white".toList).1.isWhite
        = true ↔ "white".toList <:+ fileName '/' "t/login_white".toList) ∧
    ((work demoCfg (okReplay 200) "waf.test".toList false 403 "t/login_white".toList).1.isWhite
        = true ↔ "white".toList <:+ "t/login_white".toList) ∧
    ((work demoCfg (okReplay 200) "waf.test".toList false 403 "t/login_white".toList).1.isWhite
        = false ↔ ¬ "white".toList <:+ fileName '/' "t/login_white".toList) :=
  work_isWhite_iff demoCfg (okReplay 200) "waf.test".toList false 403 "t/login_white".toList
    '/' (by decide) (by decide!)

/-- C4: the success counter equals TP + TN + FP + FN at the start, after each
merge and in the final state of every run, so that whenever a run prints its
report, TP + TN + FP + FN plus the reported error count (corpus size minus
success counter) equals the number of corpus files. -/
theorem matrix_sum_invariant (env : Env) :
    (Shared.init.success = Shared.init.TP + Shared.init.TN + Shared.init.FP + Shared.init.FN) ∧
    (∀ (s : Shared) (r : WorkResult), s.success = s.TP + s.TN + s.FP + s.FN →
      (merge s r).1.success =
        (merge s r).1.TP + (merge s r).1.TN + (merge s r).1.FP + (merge s r).1.FN) ∧
    ((main env).shared.success =
      (main env).shared.TP + (main env).shared.TN + (main env).shared.FP + (main env).shared.FN) ∧
    (∀ rep, (main env).report = some rep →
      ∃ fileList, getAllFiles env.entries = .ok fileList ∧
        rep.errors = (fileList.length : Int) - ((main env).shared.success : Int) ∧
        rep.TP + rep.TN + rep.FP + rep.FN + rep.errors = (fileList.length : Int)) := by
  refine ⟨init_balanced, fun s r hs => merge_balanced s r hs, main_balanced env, ?_⟩
  intro rep hrep
  obtain ⟨fileList, hg, hr⟩ := main_report env rep hrep
  refine ⟨fileList, hg, ?_, ?_⟩
  · rw [hr]; rfl
  · have hb : (main env).shared.success = (main env).shared.TP + (main env).shared.TN +
        (main env).shared.FP + (main env).shared.FN := main_balanced env
    rw [hr]
    simp only [mkReport]
    rw [hb]
    push_cast
    ring

theorem matrix_sum_invariant_witness :
    (main exampleEnv).report = some ⟨3, 3, 0, 2, 1, 0, 0⟩ ∧
    ∃ fileList, getAllFiles exampleEnv.entries = .ok fileList ∧
      (⟨3, 3, 0, 2, 1, 0, 0⟩ : Report).errors =
        (fileList.length : Int) - ((main exampleEnv).shared.success : Int) ∧
      (⟨3, 3, 0, 2, 1, 0, 0⟩ : Report).TP + (⟨3, 3, 0, 2, 1, 0, 0⟩ : Report).TN +
        (⟨3, 3, 0, 2, 1, 0, 0⟩ : Report).FP + (⟨3, 3, 0, 2, 1, 0, 0⟩ : Report).FN +
        (⟨3, 3, 0, 2, 1, 0, 0⟩ : Report).errors = (fileList.length : Int) :=
  ⟨by decide!, (matrix_sum_invariant exampleEnv).2.2.2 ⟨3, 3, 0, 2, 1, 0, 0⟩ (by decide!)⟩

/-- C5: the code at the claim's failing input.  With one worker and a corpus
whose first file cannot be read, the errored result is merged without
`mutex.Unlock()`: the mutex stays held, the second file is replayed but never
merged, the workers never return and no report is printed. -/
theorem errored_result_keeps_mutex :
    (merge Shared.init
      (work demoCfg (unreadableFirstEnv.replay "testcases/a_black".toList) "waf.test".toList
        false 403 "testcases/a_black".toList).1).1.locked = true ∧
    (main unreadableFirstEnv).exit = Exit.blocked ∧
    (main unreadableFirstEnv).report = none ∧
    (main unreadableFirstEnv).shared.locked = true ∧
    (main unreadableFirstEnv).shared.bar = 1 ∧
    Event.unlock ∉ (main unreadableFirstEnv).trace ∧
    Event.work "testcases/b_white".toList 403 ∈ (main unreadableFirstEnv).trace := by
  decide!

/-- C6: `connect` dials at most 4 times; it returns the connection of the
first successful attempt among attempts 1 to 4 (numbered from 0 here) after
exactly that many dials, and when the first 4 attempts all fail it returns no
connection after exactly 4 dials. -/
theorem connect_at_most_four_dials (dial : Nat → Bool) (addr : Str) (isHttps : Bool)
    (timeout : Int) :
    (connect dial addr isHttps timeout).dials.length ≤ 4 ∧
    (∀ k, k < 4 → dial k = true → (∀ j, j < k → dial j = false) →
      (∃ c, (connect dial addr isHttps timeout).conn = some c ∧ c.attempt = k) ∧
      (connect dial addr isHttps timeout).dials.length = k + 1) ∧
    ((∀ k, k < 4 → dial k = false) →
      (connect dial addr isHttps timeout).conn = none ∧
      (connect dial addr isHttps timeout).dials.length = 4) := by
  rw [connect_dials, connect_conn, connectRetry_zero, List.length_replicate]
  refine ⟨?_, ?_, ?_⟩
  · split_ifs <;> simp
  · intro k hk hdk hbefore
    have h0 : k = 0 ∨ k = 1 ∨ k = 2 ∨ k = 3 := by omega
    rcases h0 with rfl | rfl | rfl | rfl
    · simp [hdk]
    · simp [hdk, hbefore 0 (by omega)]
    · simp [hdk, hbefore 0 (by omega), hbefore 1 (by omega)]
    · simp [hdk, hbefore 0 (by omega), hbefore 1 (by omega), hbefore 2 (by omega)]
  · intro hall
    simp [hall 0 (by omega), hall 1 (by omega), hall 2 (by omega), hall 3 (by omega)]

theorem connect_at_most_four_dials_witness :
    ((∃ c, (connect (fun i => decide (i = 3)) "waf.test".toList false 1000).conn = some c ∧
        c.attempt = 3) ∧
      (connect (fun i => decide (i = 3)) "waf.test".toList false 1000).dials.length = 3 + 1) ∧
    ((connect (fun _ => false) "waf.test".toList false 1000).conn = none ∧
      (connect (fun _ => false) "waf.test".toList false 1000).dials.length = 4) :=
  ⟨(connect_at_most_four_dials (fun i => decide (i = 3)) "waf.test".toList false 1000).2.1 3
      (by decide) (by decide) (fun j hj => by
        have : j ≠ 3 := by omega
        simp [this]),
   (connect_at_most_four_dials (fun _ => false) "waf.test".toList false 1000).2.2
      (fun _ _ => rfl)⟩

/-- C7: when both calibration requests succeed with the same status code,
`main` exits with code 1, starts no worker, calls `work` for no file and
leaves the confusion matrix all-zero; and in every run, each call of `work`
receives the block status code, which differs from the status code of the
baseline request. -/
theorem same_status_stops_before_pool (env : Env) :
    (∀ (fileList : List Str) (n : Int),
      getAllFiles env.entries = .ok fileList → fileList ≠ [] →
      env.probeNormal.newRequest = none → env.probeNormal.doRequest = .ok n →
      env.probeBlock.newRequest = none → env.probeBlock.doRequest = .ok n →
      (main env).exit = Exit.code 1 ∧
      (∀ i, Event.spawn i ∉ (main env).trace) ∧
      (∀ f b, Event.work f b ∉ (main env).trace) ∧
      (main env).shared.TP = 0 ∧ (main env).shared.TN = 0 ∧
      (main env).shared.FP = 0 ∧ (main env).shared.FN = 0) ∧
    (∀ f b, Event.work f b ∈ (main env).trace →
      b = (getNomalStatusCode env.probeBlock (env.cfg.target ++ blockProbeSuffix)
            env.cfg.mHost).1 ∧
      b ≠ (getNomalStatusCode env.probeNormal env.cfg.target env.cfg.mHost).1) := by
  refine ⟨?_, fun f b h => main_work_event env f b h⟩
  intro fileList n hg hne hN1 hN2 hB1 hB2
  have hf : probeFailed env = false := by
    simp [probeFailed, getNomalStatusCode, hN1, hN2, hB1, hB2]
  have hs : (getNomalStatusCode env.probeNormal env.cfg.target env.cfg.mHost).1 =
      (getNomalStatusCode env.probeBlock (env.cfg.target ++ blockProbeSuffix)
        env.cfg.mHost).1 := by
    simp [getNomalStatusCode, hN1, hN2, hB1, hB2]
  rw [main_of_files env fileList hg hne, calibrateAndRun_same env fileList hf hs]
  refine ⟨rfl, ?_, ?_, rfl, rfl, rfl, rfl⟩
  · intro i hi
    simp only [List.mem_append, List.mem_singleton] at hi
    rcases hi with hi | hi
    · rcases probeTrace_events env _ hi with ⟨_, _, _, he⟩ | ⟨_, he⟩ <;> cases he
    · cases hi
  · intro f b hi
    simp only [List.mem_append, List.mem_singleton] at hi
    rcases hi with hi | hi
    · rcases probeTrace_events env _ hi with ⟨_, _, _, he⟩ | ⟨_, he⟩ <;> cases he
    · cases hi

theorem same_status_stops_before_pool_witness :
    ((main sameStatusEnv).exit = Exit.code 1 ∧
      (∀ i, Event.spawn i ∉ (main sameStatusEnv).trace) ∧
      (∀ f b, Event.work f b ∉ (main sameStatusEnv).trace) ∧
      (main sameStatusEnv).shared.TP = 0 ∧ (main sameStatusEnv).shared.TN = 0 ∧
      (main sameStatusEnv).shared.FP = 0 ∧ (main sameStatusEnv).shared.FN = 0) ∧
    (Event.work "testcases/login_white".toList 403 ∈ (main exampleEnv).trace ∧
      (403 : Int) ≠ (getNomalStatusCode exampleEnv.probeNormal exampleEnv.cfg.target
        exampleEnv.cfg.mHost).1) :=
  ⟨(same_status_stops_before_pool sameStatusEnv).1
      ["testcases/sqli1_black".toList, "testcases/xss1_black".toList,
        "testcases/login_white".toList] 200 rfl (by decide) rfl rfl rfl rfl,
   by decide!,
   ((same_status_stops_before_pool exampleEnv).2 "testcases/login_white".toList 403
      (by decide!)).2⟩

/-- C8, as stated, fails: the address `[::1]:` does not end with `:` followed
by digits, yet plain `connect` dials it unchanged and not with `:80`
appended. -/
theorem bracket_colon_dialed_unchanged :
    ¬ EndsWithPort "[::1]:".toList ∧
    (connect (fun _ => true) "[::1]:".toList false 1000).dials = ["[::1]:".toList] ∧
    (connect (fun _ => true) "[::1]:".toList false 1000).dials ≠ ["[::1]::80".toList] := by
  refine ⟨?_, by decide!, by decide!⟩
  intro h
  obtain ⟨d, hd, hdig⟩ := endsWithPort_last _ h
  have hd2 : d = ':' := by
    have : "[::1]:".toList.reverse.head? = some ':' := by decide
    rw [this] at hd
    exact (Option.some.inj hd).symm
  subst hd2
  exact absurd hdig (by decide)

/-- C8, amended: `connect` dials at least once and always the same address:
the given address unchanged when it contains `]:` or ends with `:` followed
by one or more decimal digits, and for every other address the address with
`:443` appended when TLS is used and `:80` appended otherwise. -/
theorem connect_dialed_address (dial : Nat → Bool) (addr : Str) (isHttps : Bool)
    (timeout : Int) :
    (connect dial addr isHttps timeout).dials ≠ [] ∧
    (ContainsBracketColon addr ∨ EndsWithPort addr →
      ∀ a ∈ (connect dial addr isHttps timeout).dials, a = addr) ∧
    (¬ (ContainsBracketColon addr ∨ EndsWithPort addr) →
      ∀ a ∈ (connect dial addr isHttps timeout).dials,
        a = addr ++ (if isHttps then ":443".toList else ":80".toList)) := by
  rw [connect_dials]
  refine ⟨?_, ?_, ?_⟩
  · intro h
    have hpos := connectRetry_pos dial
    have hlen := congrArg List.length h
    simp only [List.length_replicate, List.length_nil] at hlen
    omega
  · intro hm a ha
    have hmatch := (matchString_portPattern addr).mpr hm
    rw [List.eq_of_mem_replicate ha]
    simp [dialAddr, hmatch]
  · intro hm a ha
    have hmatch : matchString portPattern addr = false := by
      cases hb : matchString portPattern addr with
      | false => rfl
      | true => exact absurd ((matchString_portPattern addr).mp hb) hm
    rw [List.eq_of_mem_replicate ha]
    cases isHttps <;> simp [dialAddr, hmatch]

theorem connect_dialed_address_witness :
    (∀ a ∈ (connect (fun _ => true) "waf.test:8080".toList false 1000).dials,
      a = "waf.test:8080".toList) ∧
    (∀ a ∈ (connect (fun _ => true) "waf.test".toList true 1000).dials,
      a = "waf.test".toList ++ (if true = true then ":443".toList else ":80".toList)) :=
  ⟨(connect_dialed_address (fun _ => true) "waf.test:8080".toList false 1000).2.1
      (Or.inr ⟨"waf.test".toList, "8080".toList, by decide, by decide, by decide⟩),
   (connect_dialed_address (fun _ => true) "waf.test".toList true 1000).2.2
      (fun h => absurd ((matchString_portPattern "waf.test".toList).mpr h) (by decide))⟩

/-- C9: the code at the claim's failing inputs.  When the connection is
established and the send fails, or the receive fails, `work` returns its
error with the connection never closed; only the path without error closes
it, once. -/
theorem failed_exchange_leaves_conn_open :
    ((connect sendFailure.dial "waf.test".toList false demoCfg.timeout).conn ≠ none ∧
      (work demoCfg sendFailure "waf.test".toList false 403 "t/a_black".toList).1.err ≠ none ∧
      Event.close ∉ (work demoCfg sendFailure "waf.test".toList false 403
        "t/a_black".toList).2) ∧
    ((connect recvFailure.dial "waf.test".toList false demoCfg.timeout).conn ≠ none ∧
      (work demoCfg recvFailure "waf.test".toList false 403 "t/a_black".toList).1.err ≠ none ∧
      Event.close ∉ (work demoCfg recvFailure "waf.test".toList false 403
        "t/a_black".toList).2) ∧
    ((work demoCfg (okReplay 403) "waf.test".toList false 403 "t/a_black".toList).1.err = none ∧
      (work demoCfg (okReplay 403) "waf.test".toList false 403 "t/a_black".toList).2.count
        Event.close = 1) := by
  decide!

/-- C10: the code at the claim's failing inputs.  Over an empty corpus
directory, and over one whose walk fails, `main` prints its message and
returns, which ends the process with exit status 0; it has issued no
calibration request and no replay. -/
theorem no_corpus_exits_zero :
    (getAllFiles emptyDirEnv.entries = .ok [] ∧
      (main emptyDirEnv).exit = Exit.code 0 ∧
      (main emptyDirEnv).trace = [Event.print "cannot find http file".toList]) ∧
    (getAllFiles unreadableDirEnv.entries = .error "permission denied".toList ∧
      (main unreadableDirEnv).exit = Exit.code 0 ∧
      (main unreadableDirEnv).trace = [Event.print "cannot find http file".toList]) :=
  ⟨⟨rfl, by decide, by decide⟩, ⟨rfl, by decide, by decide⟩⟩

end BlazeHTTP
